import Mathlib

/-!
Shallow embedding of the Xopt orchestrator core (src/xopt/base.py) and proofs
of the specified properties of its data bookkeeping.

Modelling conventions:
  - A pandas row is a finite association of column names to values; values are
    modelled by Int (their exact type is irrelevant to every property proved).
  - The observation table (Xopt._data) and the pending-input table
    (Xopt._input_data) are lists of (index, row) pairs, in insertion order,
    mirroring dataframes indexed by the integer row index.
  - The in-flight future map (Xopt._futures) is kept as its list of keys in
    insertion order; the outcome of the future for a key is supplied by an
    environment function, FStatus, describing the state of the world at the
    moment the orchestrator inspects the future (done or not, result or
    exception).  The handle objects themselves are opaque to the orchestrator.
  - Python exceptions are modelled by Except with the error value carrying the
    message together with the orchestrator state at the moment of the raise
    (a raise in Python leaves all mutations made before it in place).
-/

namespace Xopt

/-- A dataframe row: an association list from column names to values. -/
abbrev Row := List (String × Int)

/-- Outcome of an in-flight future at an inspection point: still pending,
completed with an output row, or completed by raising an exception. -/
inductive FStatus where
  | pending : FStatus
  | success (outputs : Row) : FStatus
  | failed (excMsg : String) : FStatus
deriving DecidableEq, Repr

/-- future.done() -/
def FStatus.isDone : FStatus → Bool
  | .pending => false
  | .success _ => true
  | .failed _ => true

/-- future.exception() is not None -/
def FStatus.isFailed : FStatus → Bool
  | .failed _ => true
  | _ => false

/-- future.exception(), as an optional message. -/
def FStatus.excOf : FStatus → Option String
  | .failed e => some e
  | _ => none

/-- traceback.format_exc(): the captured failure trace for an exception
message; always begins with the traceback header line. -/
def traceback_format_exc (excMsg : String) : String :=
  "Traceback (most recent call last):\n" ++ excMsg

/-- A merged row of the observation table: the input columns, the output
columns kept from the future result (empty when the row errored, since the
except branch of update_data rebuilds outputs from scratch), and the two
error columns always present. -/
structure ObsRow where
  input : Row
  outputs : Row
  xopt_error : Bool
  xopt_error_str : String
deriving DecidableEq, Repr

/-- The mutable state of an Xopt object that the bookkeeping operations
touch (fields of Xopt.__init__). -/
structure XoptState where
  data : List (Int × ObsRow)
  input_data : List (Int × Row)
  futures : List Int
  ix_last : Int
  n_unfinished_futures : Nat
  new_data : List (Int × ObsRow)
deriving DecidableEq, Repr

/-- State set up by Xopt.__init__. -/
def initState : XoptState :=
  { data := []
    input_data := []
    futures := []
    ix_last := -1
    n_unfinished_futures := 0
    new_data := [] }

/-- Options bundle (XoptOptions) as used by the orchestrator core. -/
structure XoptOptions where
  asynch : Bool
  strict : Bool
  timeout : Option Nat
deriving DecidableEq, Repr

/-- The configured collaborators of an Xopt object.  The generator, evaluator
and VOCS are opaque to the bookkeeping core beyond presence, the generate
call and max_workers, so presence is what the configuration records. -/
structure Config where
  generator : Option Unit
  evaluator : Option Unit
  vocs : Option Unit
  max_workers : Nat
  options : XoptOptions

/-- Xopt.submit_data: copy and reindex the incoming rows to fresh indices
ix_last+1 .. ix_last+len, advance ix_last, append to the pending-input table,
and record the evaluator futures keyed on those same indices. -/
def submit_data (rows : List Row) (s : XoptState) : XoptState :=
  let n := rows.length
  let newIndex : List Int := (List.range n).map (fun i : Nat => s.ix_last + 1 + (i : Int))
  { s with
    ix_last := s.ix_last + n
    input_data := s.input_data ++ newIndex.zip rows
    futures := s.futures ++ newIndex }

/-- self._input_data.loc lookup of a single done index. -/
def locRow (input_data : List (Int × Row)) (ix : Int) : Row :=
  match input_data.find? (fun p => p.1 == ix) with
  | some p => p.2
  | none => []

/-- The try/except body of update_data for one done future: on success keep
the outputs and set xopt_error False with empty xopt_error_str; on exception
discard any output and set xopt_error True with the captured trace.  (The
pending case is never reached: only done futures are passed in.) -/
def resultRow (st : FStatus) (inp : Row) : ObsRow :=
  match st with
  | .success outputs =>
      { input := inp, outputs := outputs, xopt_error := false, xopt_error_str := "" }
  | .failed e =>
      { input := inp, outputs := [],
        xopt_error := true, xopt_error_str := traceback_format_exc e }
  | .pending =>
      { input := inp, outputs := [], xopt_error := false, xopt_error_str := "" }

/-- Xopt.update_data: collect the done indices, pop their futures, build one
output row per done index (capturing per-row exceptions), concatenate inputs
and outputs into new_data, append new_data to the observation table, and drop
the done indices from the pending-input table. -/
def update_data (env : Int → FStatus) (s : XoptState) : XoptState :=
  let ix_done := s.futures.filter (fun ix => (env ix).isDone)
  let nd : List (Int × ObsRow) :=
    ix_done.map (fun ix => (ix, resultRow (env ix) (locRow s.input_data ix)))
  { s with
    data := s.data ++ nd
    new_data := nd
    futures := s.futures.filter (fun ix => !(env ix).isDone)
    input_data := s.input_data.filter (fun p => !ix_done.contains p.1) }

/-- The strict-mode loop of process_futures over the finished futures: the
first exception found among them, when strict is set. -/
def strict_exception (strict : Bool) (env : Int → FStatus)
    (finished : List Int) : Option String :=
  if strict then finished.findSome? (fun ix => (env ix).excOf) else none

/-- Xopt.process_futures: wait for futures (the post-wait world is the
environment env); if strict, re-raise the first exception found among the
finished futures; otherwise merge via update_data and return the new state
with the number of unfinished futures. -/
def process_futures (strict : Bool) (env : Int → FStatus) (s : XoptState) :
    Except (String × XoptState) (XoptState × Nat) :=
  match strict_exception strict env (s.futures.filter (fun ix => (env ix).isDone)) with
  | some e => .error (e, s)
  | none =>
    .ok (update_data env s, (s.futures.filter (fun ix => !(env ix).isDone)).length)

/-- Xopt.check_components: the configuration check run at the top of step,
returning the XoptError message when a collaborator is missing. -/
def check_components (cfg : Config) : Option String :=
  if cfg.generator.isNone then some "Xopt generator not specified"
  else if cfg.evaluator.isNone then some "Xopt evaluator not specified"
  else if cfg.vocs.isNone then some "Xopt VOCS is not specified"
  else none

/-- Xopt.step: check components, size the candidate request (capacity in
synchronous mode, capacity minus unfinished count in asynchronous mode —
computed in Int, as Python subtraction can go negative), generate, submit,
then process futures and store the unfinished count. -/
def step (cfg : Config) (gen : Int → List Row) (env : Int → FStatus)
    (s : XoptState) : Except (String × XoptState) XoptState :=
  match check_components cfg with
  | some msg => .error (msg, s)
  | none =>
    let n_generate : Int :=
      if cfg.options.asynch then
        (cfg.max_workers : Int) - (s.n_unfinished_futures : Int)
      else (cfg.max_workers : Int)
    let new_samples := gen n_generate
    let s1 := submit_data new_samples s
    match process_futures cfg.options.strict env s1 with
    | .error e => .error e
    | .ok (s2, n) => .ok { s2 with n_unfinished_futures := n }

/-- A bookkeeping operation on the state: a submit_data call or an
update_data pass with the world in some post-wait condition. -/
inductive Op where
  | submit (rows : List Row) : Op
  | update (env : Int → FStatus) : Op

/-- Apply one bookkeeping operation. -/
def applyOp (s : XoptState) : Op → XoptState
  | .submit rows => submit_data rows s
  | .update env => update_data env s

/-- Run a sequence of bookkeeping operations from the freshly initialized
state. -/
def runOps (ops : List Op) : XoptState :=
  ops.foldl applyOp initState

/-- Keys (row indices) of an indexed table. -/
def keysOf {α : Type} (l : List (Int × α)) : List Int := l.map Prod.fst

/-- The contiguous integer index range 0, 1, ..., n-1 as Int. -/
def rangeInt (n : Nat) : List Int := (List.range n).map (fun i : Nat => (i : Int))

/-- The bookkeeping invariant: the last-index counter never drops below its
initial value, the pending-input table and the future map always hold exactly
the same keys in the same order, and the pending keys together with the
observation-table keys are a permutation of the contiguous range of all
assigned indices. -/
def Inv (s : XoptState) : Prop :=
  -1 ≤ s.ix_last ∧
  keysOf s.input_data = s.futures ∧
  (keysOf s.input_data ++ keysOf s.data).Perm (rangeInt (s.ix_last + 1).toNat)

/-- A pandas DataFrame as a Python object: an index column and data rows. -/
structure PyDF where
  index : List Int
  rows : List Row
deriving DecidableEq, Repr

/-- A Python heap of dataframe objects; a reference is a position into the
heap.  Used only to state the effect of submit_data on the caller's own
dataframe object. -/
abbrev Heap := List PyDF

/-- Xopt.submit_data at the Python object level: the caller passes a
reference r to a dataframe on the heap; the body first rebinds the local
name to a freshly allocated copy (the line input_data = pd.DataFrame(
input_data, copy=True)), then reassigns the index on that copy only, and
updates the orchestrator state from the copied rows.  Returns the heap after
the call together with the new state. -/
def submit_data_py (h : Heap) (r : Nat) (s : XoptState) : Heap × XoptState :=
  let df := h.getD r ⟨[], []⟩
  let r1 := h.length
  let h1 := h ++ [df]
  let newIndex : List Int :=
    (List.range df.rows.length).map (fun i : Nat => s.ix_last + 1 + (i : Int))
  let h2 := h1.set r1 { df with index := newIndex }
  (h2, submit_data df.rows s)

/-- Fixture for concrete witnesses: outcomes where future 0 succeeded,
future 1 failed and all others are pending. -/
def envW : Int → FStatus := fun ix =>
  if ix = 0 then FStatus.success [("y", 1)]
  else if ix = 1 then FStatus.failed "boom" else FStatus.pending

/-- Fixture for concrete witnesses: three rows submitted from the initial
state, occupying indices 0, 1 and 2. -/
def stateW : XoptState :=
  submit_data [[("x", 5)], [("x", 7)], [("x", 9)]] initState

/-- Fixture for concrete witnesses: a fully configured synchronous,
non-strict orchestrator with capacity 2. -/
def cfgW : Config :=
  { generator := some ()
    evaluator := some ()
    vocs := some ()
    max_workers := 2
    options := { asynch := false, strict := false, timeout := none } }

/-- Fixture for concrete witnesses: the same configuration with the
generator missing. -/
def cfgMissingW : Config :=
  { generator := none
    evaluator := some ()
    vocs := some ()
    max_workers := 2
    options := { asynch := false, strict := false, timeout := none } }

/-- Fixture for concrete witnesses: a generator that always proposes the
same two candidate rows. -/
def genW : Int → List Row := fun _ => [[("x", 5)], [("x", 6)]]

/-- Fixture for concrete witnesses: a world where every future has
completed successfully. -/
def envDoneW : Int → FStatus := fun _ => FStatus.success [("y", 0)]

/-- Fixture for concrete witnesses: the state produced by one synchronous
step of the fixture configuration in the all-done world. -/
def stepResW : XoptState :=
  match step cfgW genW envDoneW initState with
  | .ok s2 => s2
  | .error _ => initState

/-- Fixture for concrete witnesses: a heap holding one caller-owned
dataframe. -/
def heapW : Heap := [⟨[0, 1], [[("x", 5)], [("x", 7)]]⟩]

lemma keysOf_append {α : Type} (a b : List (Int × α)) :
    keysOf (a ++ b) = keysOf a ++ keysOf b := List.map_append _ _ _

lemma keysOf_filter {α : Type} (q : Int → Bool) (l : List (Int × α)) :
    keysOf (l.filter (fun p => q p.1)) = (keysOf l).filter q := by
  induction l with
  | nil => rfl
  | cons a l ih =>
    simp only [keysOf, List.filter_cons, List.map_cons] at *
    cases hq : q a.1 <;> simp [hq, ih]

lemma rangeInt_nodup (n : Nat) : (rangeInt n).Nodup := by
  have hinj : Function.Injective (fun i : Nat => (i : Int)) := by
    intro a b h
    simpa using h
  exact (List.nodup_range n).map hinj

lemma inv_init : Inv initState := by
  refine ⟨by norm_num [initState], rfl, ?_⟩
  simp [initState, keysOf, rangeInt]

lemma inv_submit (rows : List Row) (s : XoptState) (h : Inv s) :
    Inv (submit_data rows s) := by
  obtain ⟨h0, h1, h2⟩ := h
  have hzip : keysOf (((List.range rows.length).map
      (fun i : Nat => s.ix_last + 1 + (i : Int))).zip rows) =
      (List.range rows.length).map (fun i : Nat => s.ix_last + 1 + (i : Int)) :=
    List.map_fst_zip _ _ (by simp)
  refine ⟨?_, ?_, ?_⟩
  · show -1 ≤ s.ix_last + (rows.length : Int)
    omega
  · simp only [submit_data, keysOf_append, hzip, h1]
  · have hN : ((s.ix_last + (rows.length : Int)) + 1).toNat =
        (s.ix_last + 1).toNat + rows.length := by omega
    have hcast : ((s.ix_last + 1).toNat : Int) = s.ix_last + 1 := by omega
    simp only [submit_data, keysOf_append, hzip, hN]
    have hsplit : rangeInt ((s.ix_last + 1).toNat + rows.length) =
        rangeInt (s.ix_last + 1).toNat ++
          (List.range rows.length).map (fun i : Nat => s.ix_last + 1 + (i : Int)) := by
      unfold rangeInt
      rw [List.range_add, List.map_append, List.map_map]
      congr 1
      apply List.map_congr_left
      intro a _
      simp only [Function.comp_apply]
      push_cast
      omega
    rw [hsplit]
    rw [← Multiset.coe_eq_coe] at h2 ⊢
    simp only [← Multiset.coe_add] at h2 ⊢
    rw [← h2]
    abel

lemma inv_update (env : Int → FStatus) (s : XoptState) (h : Inv s) :
    Inv (update_data env s) := by
  obtain ⟨h0, h1, h2⟩ := h
  have hfilt : (keysOf s.input_data).filter
      (fun k => !(s.futures.filter (fun ix => (env ix).isDone)).contains k) =
      s.futures.filter (fun ix => !(env ix).isDone) := by
    rw [h1]
    apply List.filter_congr
    intro x hx
    by_cases hd : (env x).isDone = true
    · have : x ∈ s.futures.filter (fun ix => (env ix).isDone) :=
        List.mem_filter.2 ⟨hx, hd⟩
      simp [this, hd]
    · have : x ∉ s.futures.filter (fun ix => (env ix).isDone) := by
        intro hmem
        exact hd (List.mem_filter.1 hmem).2
      simp [this, hd]
  have hkeys : keysOf (update_data env s).input_data = (update_data env s).futures := by
    show keysOf (s.input_data.filter
        (fun p => !(s.futures.filter (fun ix => (env ix).isDone)).contains p.1)) =
        s.futures.filter (fun ix => !(env ix).isDone)
    rw [keysOf_filter (fun k =>
      !(s.futures.filter (fun ix => (env ix).isDone)).contains k) s.input_data, hfilt]
  refine ⟨h0, hkeys, ?_⟩
  have hcomp : (Prod.fst ∘ fun ix : Int =>
      (ix, resultRow (env ix) (locRow s.input_data ix))) = id := rfl
  have hnd : keysOf ((s.futures.filter (fun ix => (env ix).isDone)).map
      (fun ix => (ix, resultRow (env ix) (locRow s.input_data ix)))) =
      s.futures.filter (fun ix => (env ix).isDone) := by
    unfold keysOf
    rw [List.map_map, hcomp, List.map_id]
  show (keysOf (update_data env s).input_data ++
      keysOf (update_data env s).data).Perm (rangeInt (s.ix_last + 1).toNat)
  rw [hkeys]
  show ((s.futures.filter (fun ix => !(env ix).isDone)) ++
      keysOf (s.data ++ (s.futures.filter (fun ix => (env ix).isDone)).map
        (fun ix => (ix, resultRow (env ix) (locRow s.input_data ix))))).Perm
      (rangeInt (s.ix_last + 1).toNat)
  rw [keysOf_append, hnd]
  have hpart := List.filter_append_perm (fun ix => !(env ix).isDone) s.futures
  simp only [Bool.not_not] at hpart
  rw [← Multiset.coe_eq_coe] at h2 hpart ⊢
  simp only [← Multiset.coe_add] at h2 hpart ⊢
  rw [h1] at h2
  rw [← h2, ← hpart]
  abel

lemma inv_applyOp (s : XoptState) (op : Op) (h : Inv s) : Inv (applyOp s op) := by
  cases op with
  | submit rows => exact inv_submit rows s h
  | update env => exact inv_update env s h

lemma inv_foldl (ops : List Op) : ∀ s : XoptState, Inv s → Inv (ops.foldl applyOp s) := by
  induction ops with
  | nil => intro s h; exact h
  | cons op ops ih => intro s h; exact ih _ (inv_applyOp s op h)

lemma inv_runOps (ops : List Op) : Inv (runOps ops) :=
  inv_foldl ops initState inv_init

lemma traceback_format_exc_ne_empty (e : String) : traceback_format_exc e ≠ "" := by
  unfold traceback_format_exc
  intro hcontra
  have hlen := congrArg String.length hcontra
  rw [String.length_append] at hlen
  have hpos : (0 : Nat) < ("Traceback (most recent call last):\n").length := by decide
  simp at hlen
  omega

lemma keysOf_map_pair (f : Int → ObsRow) (l : List Int) :
    keysOf (l.map (fun ix => (ix, f ix))) = l := by
  have hcomp : (Prod.fst ∘ fun ix : Int => (ix, f ix)) = id := rfl
  unfold keysOf
  rw [List.map_map, hcomp, List.map_id]

/-- Claim C1: for every sequence of submit_data and update_data operations,
the keys of the pending-input table together with the keys of the observation
table form, up to order, exactly the contiguous integer range from 0 through
the last-index counter, with no index missing, none repeated and none present
in both tables. -/
theorem submitted_index_partition (ops : List Op) :
    (keysOf (runOps ops).input_data ++ keysOf (runOps ops).data).Perm
      (rangeInt ((runOps ops).ix_last + 1).toNat) ∧
    (keysOf (runOps ops).input_data ++ keysOf (runOps ops).data).Nodup :=
  ⟨(inv_runOps ops).2.2, (inv_runOps ops).2.2.symm.nodup (rangeInt_nodup _)⟩

/-- Claim C2: after any sequence of submit_data and update_data operations,
the pending-input table and the in-flight future map hold exactly the same
keys (submit_data adds each fresh index to both, update_data removes each
merged index from both). -/
theorem pending_keys_match_futures (ops : List Op) :
    keysOf (runOps ops).input_data = (runOps ops).futures :=
  (inv_runOps ops).2.1

/-- Claim C3: update_data appends exactly the resolved rows to the
observation table; a merged row whose future failed has xopt_error true, a
non-empty captured trace and its partial outputs discarded, while a merged
row whose future succeeded has xopt_error false and the empty error string;
and every done future of the state is merged (none dropped). -/
theorem merged_rows_error_flags (env : Int → FStatus) (s : XoptState) :
    ((update_data env s).data = s.data ++ (update_data env s).new_data) ∧
    (∀ ix r, (ix, r) ∈ (update_data env s).new_data →
      ((env ix).isFailed = true →
        r.xopt_error = true ∧ r.xopt_error_str ≠ "" ∧ r.outputs = []) ∧
      ((env ix).isFailed = false →
        r.xopt_error = false ∧ r.xopt_error_str = "")) ∧
    (∀ ix ∈ s.futures, (env ix).isDone = true →
      ix ∈ keysOf (update_data env s).data) := by
  refine ⟨rfl, ?_, ?_⟩
  · intro ix r hmem
    have hmem' : (ix, r) ∈ (s.futures.filter (fun j => (env j).isDone)).map
        (fun j => (j, resultRow (env j) (locRow s.input_data j))) := hmem
    obtain ⟨j, hj, hpair⟩ := List.mem_map.1 hmem'
    obtain ⟨hj1, hj2⟩ := Prod.mk.injEq .. ▸ hpair
    subst hj1
    have hdone : (env j).isDone = true := (List.mem_filter.1 hj).2
    constructor
    · intro hfail
      cases henv : env j with
      | pending => rw [henv] at hdone; cases hdone
      | success outputs => rw [henv] at hfail; cases hfail
      | failed e =>
        rw [henv] at hj2
        rw [← hj2]
        exact ⟨rfl, traceback_format_exc_ne_empty e, rfl⟩
    · intro hfail
      cases henv : env j with
      | pending => rw [henv] at hdone; cases hdone
      | success outputs =>
        rw [henv] at hj2
        rw [← hj2]
        exact ⟨rfl, rfl⟩
      | failed e => rw [henv] at hfail; cases hfail
  · intro ix hix hdone
    have hkeys : keysOf (update_data env s).data =
        keysOf s.data ++ s.futures.filter (fun j => (env j).isDone) := by
      show keysOf (s.data ++ (s.futures.filter (fun j => (env j).isDone)).map
        (fun j => (j, resultRow (env j) (locRow s.input_data j)))) = _
      rw [keysOf_append, keysOf_map_pair]
    rw [hkeys]
    exact List.mem_append_right _ (List.mem_filter.2 ⟨hix, hdone⟩)

/-- Concrete instantiation of merged_rows_error_flags: merging the failed
future 1 of the fixture yields the error row with flag set, the captured
trace and no outputs. -/
theorem merged_rows_error_flags_witness :
    (resultRow (FStatus.failed "boom") [("x", 7)]).xopt_error = true ∧
    (resultRow (FStatus.failed "boom") [("x", 7)]).xopt_error_str ≠ "" ∧
    (resultRow (FStatus.failed "boom") [("x", 7)]).outputs = [] :=
  ((merged_rows_error_flags envW stateW).2.1 1
    (resultRow (FStatus.failed "boom") [("x", 7)]) (by decide)).1 (by decide)

/-- Claim C5: calling update_data when no in-flight future has resolved
leaves the observation table, the pending-input table and the future map
unchanged. -/
theorem update_data_noop_when_none_done (env : Int → FStatus) (s : XoptState)
    (h : ∀ ix ∈ s.futures, (env ix).isDone = false) :
    (update_data env s).data = s.data ∧
    (update_data env s).input_data = s.input_data ∧
    (update_data env s).futures = s.futures := by
  have hnil : s.futures.filter (fun ix => (env ix).isDone) = [] :=
    List.filter_eq_nil_iff.2 (fun a ha => by simp [h a ha])
  refine ⟨?_, ?_, ?_⟩
  · show s.data ++ (s.futures.filter (fun ix => (env ix).isDone)).map
      (fun ix => (ix, resultRow (env ix) (locRow s.input_data ix))) = s.data
    rw [hnil]
    simp
  · show s.input_data.filter (fun p =>
      !(s.futures.filter (fun ix => (env ix).isDone)).contains p.1) = s.input_data
    rw [hnil]
    simp
  · show s.futures.filter (fun ix => !(env ix).isDone) = s.futures
    exact List.filter_eq_self.2 (fun a ha => by simp [h a ha])

/-- Concrete instantiation of update_data_noop_when_none_done: with every
future of the fixture still pending, update_data changes nothing. -/
theorem update_data_noop_witness :
    (update_data (fun _ => FStatus.pending) stateW).data = stateW.data ∧
    (update_data (fun _ => FStatus.pending) stateW).input_data = stateW.input_data ∧
    (update_data (fun _ => FStatus.pending) stateW).futures = stateW.futures :=
  update_data_noop_when_none_done (fun _ => FStatus.pending) stateW
    (fun _ _ => rfl)

lemma findSome?_isSome_of_mem {α β : Type} (f : α → Option β) (l : List α)
    (x : α) (hfx : (f x).isSome = true) :
    x ∈ l → ∃ b, l.findSome? f = some b := by
  induction l with
  | nil => intro hx; cases hx
  | cons a l ih =>
    intro hx
    rw [List.findSome?_cons]
    cases hfa : f a with
    | some b => exact ⟨b, rfl⟩
    | none =>
      rcases List.mem_cons.1 hx with hxa | hxl
      · subst hxa
        rw [hfa] at hfx
        simp at hfx
      · exact ih hxl

lemma strict_exception_some (env : Int → FStatus) (s : XoptState)
    (h : ∃ ix ∈ s.futures, (env ix).isFailed = true) :
    ∃ e, strict_exception true env
      (s.futures.filter (fun ix => (env ix).isDone)) = some e := by
  obtain ⟨ix, hmem, hfail⟩ := h
  have hdone : (env ix).isDone = true := by
    cases henv : env ix with
    | pending => rw [henv] at hfail; cases hfail
    | success outputs => rfl
    | failed e => rfl
  have hx : ix ∈ s.futures.filter (fun j => (env j).isDone) :=
    List.mem_filter.2 ⟨hmem, hdone⟩
  have hsome : ((env ix).excOf).isSome = true := by
    cases henv : env ix with
    | pending => rw [henv] at hfail; cases hfail
    | success outputs => rw [henv] at hfail; cases hfail
    | failed e => rfl
  unfold strict_exception
  rw [if_pos rfl]
  exact findSome?_isSome_of_mem _ _ ix hsome hx

lemma process_futures_error_of_failed (env : Int → FStatus) (s : XoptState)
    (h : ∃ ix ∈ s.futures, (env ix).isFailed = true) :
    ∃ e, process_futures true env s = Except.error (e, s) := by
  obtain ⟨e, he⟩ := strict_exception_some env s h
  refine ⟨e, ?_⟩
  unfold process_futures
  rw [he]

lemma process_futures_ok_inv (strict : Bool) (env : Int → FStatus)
    (s s3 : XoptState) (n : Nat)
    (h : process_futures strict env s = Except.ok (s3, n)) :
    s3 = update_data env s ∧
    n = (s.futures.filter (fun ix => !(env ix).isDone)).length := by
  unfold process_futures at h
  cases hse : strict_exception strict env
      (s.futures.filter (fun ix => (env ix).isDone)) with
  | some e => rw [hse] at h; cases h
  | none =>
    rw [hse] at h
    simp only [Except.ok.injEq, Prod.mk.injEq] at h
    exact ⟨h.1.symm, h.2.symm⟩

/-- Claim C4: with strict mode enabled, a completed future that signals a
failure makes process_futures re-raise that failure: the call propagates the
exception instead of merging, and no error row is appended to the
observation table by the call. -/
theorem strict_mode_reraises (env : Int → FStatus) (s : XoptState)
    (h : ∃ ix ∈ s.futures, (env ix).isDone = true ∧ (env ix).isFailed = true) :
    ∃ e s2, process_futures true env s = Except.error (e, s2) ∧
      s2.data = s.data := by
  obtain ⟨ix, hmem, _, hfail⟩ := h
  obtain ⟨e, he⟩ := process_futures_error_of_failed env s ⟨ix, hmem, hfail⟩
  exact ⟨e, s, he, rfl⟩

/-- Concrete instantiation of strict_mode_reraises on the fixture where
future 1 failed. -/
theorem strict_mode_reraises_witness :
    ∃ e s2, process_futures true envW stateW = Except.error (e, s2) ∧
      s2.data = stateW.data :=
  strict_mode_reraises envW stateW ⟨1, by decide, by decide, by decide⟩

/-- Claim C9: the strict re-raise happens before any merge: process_futures
propagates the failure carrying the state exactly as it was before the call,
so the observation table, the pending-input table and the future map are
untouched, and every future — the failed one together with any that
completed successfully in the same wait — is still in the future map. -/
theorem strict_reraise_preserves_state (env : Int → FStatus) (s : XoptState)
    (h : ∃ ix ∈ s.futures, (env ix).isFailed = true) :
    ∃ e, process_futures true env s = Except.error (e, s) :=
  process_futures_error_of_failed env s h

/-- Concrete instantiation of strict_reraise_preserves_state on the fixture
where future 0 succeeded and future 1 failed: the whole state survives. -/
theorem strict_reraise_preserves_state_witness :
    ∃ e, process_futures true envW stateW = Except.error (e, stateW) :=
  strict_reraise_preserves_state envW stateW ⟨1, by decide, by decide⟩

/-- Claim C6: step consults the generator at exactly one candidate count —
the evaluator capacity in synchronous mode, and the capacity minus the
current unfinished count in asynchronous mode: two generators that agree on
that single count give identical step outcomes. -/
theorem step_request_size (cfg : Config) (gen gen2 : Int → List Row)
    (env : Int → FStatus) (s : XoptState)
    (h : gen (if cfg.options.asynch then
          (cfg.max_workers : Int) - (s.n_unfinished_futures : Int)
        else (cfg.max_workers : Int)) =
      gen2 (if cfg.options.asynch then
          (cfg.max_workers : Int) - (s.n_unfinished_futures : Int)
        else (cfg.max_workers : Int))) :
    step cfg gen env s = step cfg gen2 env s := by
  unfold step
  cases check_components cfg with
  | some msg => rfl
  | none =>
    dsimp only
    rw [h]

/-- Concrete instantiation of step_request_size: a constant generator and
one that only answers a request of size two behave identically under the
synchronous capacity-2 fixture. -/
theorem step_request_size_witness :
    step cfgW (fun _ => [[("x", 1)], [("x", 2)]]) envW initState =
      step cfgW (fun n => if n = 2 then [[("x", 1)], [("x", 2)]] else [])
        envW initState :=
  step_request_size cfgW (fun _ => [[("x", 1)], [("x", 2)]])
    (fun n => if n = 2 then [[("x", 1)], [("x", 2)]] else [])
    envW initState (by decide)

/-- Claim C7: in synchronous mode the candidate request is the full
capacity; whenever step returns normally and the wait left every in-flight
future resolved (that is, the timeout did not expire first), the recorded
unfinished count after the step is zero — leftovers from earlier steps
included, since the wait covers every future in the map. -/
theorem sync_step_zero_unfinished (cfg : Config) (gen : Int → List Row)
    (env : Int → FStatus) (s s2 : XoptState)
    (hsync : cfg.options.asynch = false)
    (hall : ∀ ix ∈ (submit_data (gen (cfg.max_workers : Int)) s).futures,
      (env ix).isDone = true)
    (hok : step cfg gen env s = Except.ok s2) :
    s2.n_unfinished_futures = 0 := by
  unfold step at hok
  cases hc : check_components cfg with
  | some msg => rw [hc] at hok; cases hok
  | none =>
    rw [hc] at hok
    simp only [hsync, Bool.false_eq_true, if_false] at hok
    cases hp : process_futures cfg.options.strict env
        (submit_data (gen (cfg.max_workers : Int)) s) with
    | error e => rw [hp] at hok; cases hok
    | ok p =>
      obtain ⟨s3, n⟩ := p
      rw [hp] at hok
      cases hok
      obtain ⟨_, hn⟩ := process_futures_ok_inv _ _ _ _ _ hp
      have hfilter : (submit_data (gen (cfg.max_workers : Int)) s).futures.filter
          (fun ix => !(env ix).isDone) = [] :=
        List.filter_eq_nil_iff.2 (fun a ha => by simp [hall a ha])
      show n = 0
      rw [hn, hfilter, List.length_nil]

/-- Concrete instantiation of sync_step_zero_unfinished: one synchronous
step of the fixture in a world where every future completes reports zero
unfinished futures. -/
theorem sync_step_zero_unfinished_witness : stepResW.n_unfinished_futures = 0 :=
  sync_step_zero_unfinished cfgW genW envDoneW initState stepResW rfl
    (by decide) rfl

/-- Claim C8: when a collaborator is missing, step raises the configuration
error before any candidate generation or submission: the call propagates the
check_components message with the state exactly as it was, so the pending
table, the future map, the observation table and the last-index counter are
all unmodified. -/
theorem config_error_fails_fast (cfg : Config) (gen : Int → List Row)
    (env : Int → FStatus) (s : XoptState) (msg : String)
    (h : check_components cfg = some msg) :
    step cfg gen env s = Except.error (msg, s) := by
  unfold step
  rw [h]

/-- Concrete instantiation of config_error_fails_fast: with the generator
missing, step fails with the XoptError message and the fixture state is
untouched. -/
theorem config_error_fails_fast_witness :
    step cfgMissingW genW envW stateW =
      Except.error ("Xopt generator not specified", stateW) :=
  config_error_fails_fast cfgMissingW genW envW stateW
    "Xopt generator not specified" rfl

/-- Claim C10: submit_data never mutates the dataframe object passed in by
the caller: the index reassignment happens on a freshly allocated copy, so
the caller's heap cell is identical before and after the call. -/
theorem submit_data_py_caller_object_unchanged (h : Heap) (r : Nat)
    (s : XoptState) (hr : r < h.length) :
    ((submit_data_py h r s).1)[r]? = h[r]? := by
  show ((h ++ [h.getD r ⟨[], []⟩]).set h.length _)[r]? = h[r]?
  rw [List.getElem?_set_ne (by omega)]
  exact List.getElem?_append_left hr

/-- Concrete instantiation of submit_data_py_caller_object_unchanged on a
one-dataframe heap. -/
theorem submit_data_py_caller_object_unchanged_witness :
    ((submit_data_py heapW 0 initState).1)[0]? = heapW[0]? :=
  submit_data_py_caller_object_unchanged heapW 0 initState (by decide)

end Xopt
